import Mathlib

/-!
Verification of the publish-ordering, manifest-editing and publish logic of
the `denoland/automation` repository, shallowly embedded in Lean.

The embedding follows the TypeScript source:
* `getCratesPublishOrder` / `getInsertPosition` from `src/repo.ts`
* `Crate.immediateDependenciesInRepo`, `Crate.isPublished`, `Crate.publish`,
  `Crate.#updateManifestFile`, `updateFileEnsureChange` from `src/crate.ts`
* `Repo.addCrate` from `src/repo.ts`

Thrown JavaScript errors are modelled with `Except String`; the error value
is the message string the source interpolates.
-/

namespace Automation

/-- Cargo dependency kinds: `null` (normal), `"dev"`, `"build"`. -/
inductive DepKind where
  | normal
  | dev
  | build
deriving DecidableEq, Repr

/-- Embeds `CargoDependencyMetadata` (the fields the ordering logic reads:
`name` and `kind`). -/
structure CargoDependencyMetadata where
  name : String
  kind : DepKind
deriving DecidableEq, Repr

/-- Embeds a `Crate` (the fields the ordering logic reads: `name` and the
declared `dependencies`). -/
structure Crate where
  name : String
  dependencies : List CargoDependencyMetadata
deriving DecidableEq, Repr

/-- Embeds the `CrateDep` interface of `src/crate.ts`. -/
structure CrateDep where
  isDev : Bool
  crate : Crate
deriving DecidableEq, Repr

/-- Embeds `Crate.immediateDependenciesInRepo`: each declared dependency whose
name matches a crate of the repo becomes a `CrateDep`, tagged with
`isDev := kind === "dev"`. -/
def immediateDependenciesInRepo (repoCrates : List Crate) (c : Crate) :
    List CrateDep :=
  c.dependencies.filterMap fun dep =>
    match repoCrates.find? (fun cr => cr.name == dep.name) with
    | some crate => some ⟨dep.kind == DepKind.dev, crate⟩
    | none => none

/-- An entry of the `sortedCrates` list of `getCratesPublishOrder`. -/
structure SortedItem where
  crate : Crate
  deps : List CrateDep
deriving DecidableEq, Repr

/-- Embeds the inner `getInsertPosition` function of `getCratesPublishOrder`
(`src/repo.ts`).  The JS loop scans `sortedCrates` from the start; the
recursion returns the loop index.  `crateItemDep.isDev === depB?.isDev` is
false whenever `depB` is `undefined`, so the cycle check only fires when both
edges exist. -/
def getInsertPosition (c : Crate) (crateDeps : List CrateDep) :
    List SortedItem → Except String Nat
  | [] => Except.ok 0
  | item :: rest =>
    match item.deps.find? (fun d => d.crate.name == c.name) with
    | some crateItemDep =>
      match crateDeps.find? (fun d => d.crate.name == item.crate.name) with
      | some depB =>
        if crateItemDep.isDev = depB.isDev then
          Except.error
            ("Circular dependency found between " ++ c.name ++ " and " ++
              item.crate.name)
        else if crateItemDep.isDev then
          (getInsertPosition c crateDeps rest).map (· + 1)
        else
          Except.ok 0
      | none => Except.ok 0
    | none => (getInsertPosition c crateDeps rest).map (· + 1)

/-- One iteration of the `for (const crate of crates)` loop of
`getCratesPublishOrder`: compute the crate's in-repo dependencies, find the
insert position and splice the crate in. -/
def insertCrate (repoCrates : List Crate) (sorted : List SortedItem)
    (c : Crate) : Except String (List SortedItem) :=
  let deps := immediateDependenciesInRepo repoCrates c
  match getInsertPosition c deps sorted with
  | Except.error e => Except.error e
  | Except.ok pos => Except.ok (sorted.insertIdx pos ⟨c, deps⟩)

/-- Embeds `getCratesPublishOrder` (`src/repo.ts`).  `repoCrates` is the
workspace membership list used to resolve dependency names
(`Repo.getCratesPublishOrder` passes the same list for both arguments). -/
def getCratesPublishOrder (repoCrates : List Crate) (crates : List Crate) :
    Except String (List Crate) :=
  match crates.foldlM (insertCrate repoCrates) [] with
  | Except.error e => Except.error e
  | Except.ok sorted => Except.ok (sorted.map (·.crate))

/-- Concrete crate `r`, normally depending on `p` (used in counterexamples
and witnesses below). -/
def cR : Crate := ⟨"r", [⟨"p", DepKind.normal⟩]⟩

/-- Concrete crate `p`, normally depending on `q`. -/
def cP : Crate := ⟨"p", [⟨"q", DepKind.normal⟩]⟩

/-- Concrete crate `q`, with no dependencies. -/
def cQ : Crate := ⟨"q", []⟩

theorem except_map_ok {ε α β : Type} (f : α → β) (x : Except ε α) (b : β)
    (h : x.map f = Except.ok b) : ∃ a, x = Except.ok a ∧ b = f a := by
  cases x with
  | error e => simp [Except.map] at h
  | ok a =>
    simp only [Except.map, Except.ok.injEq] at h
    exact ⟨a, rfl, h.symm⟩

theorem insertIdx_perm {α : Type} (a : α) :
    ∀ (n : Nat) (l : List α), n ≤ l.length → (l.insertIdx n a).Perm (a :: l)
  | 0, l, _ => by simp
  | n + 1, [], h => by simp at h
  | n + 1, x :: l, h => by
    simp only [List.insertIdx_succ_cons]
    exact ((insertIdx_perm a n l (Nat.le_of_succ_le_succ h)).cons x).trans
      (List.Perm.swap a x l)

theorem getInsertPosition_le (c : Crate) (crateDeps : List CrateDep) :
    ∀ (sorted : List SortedItem) (n : Nat),
      getInsertPosition c crateDeps sorted = Except.ok n → n ≤ sorted.length
  | [], n, h => by
    simp only [getInsertPosition, Except.ok.injEq] at h
    omega
  | item :: rest, n, h => by
    simp only [getInsertPosition] at h
    cases hfind : item.deps.find? (fun d => d.crate.name == c.name) with
    | none =>
      rw [hfind] at h
      obtain ⟨m, hm, rfl⟩ := except_map_ok _ _ _ h
      have := getInsertPosition_le c crateDeps rest m hm
      simp only [List.length_cons]
      omega
    | some crateItemDep =>
      rw [hfind] at h
      cases hfindB : crateDeps.find? (fun d => d.crate.name == item.crate.name) with
      | none =>
        rw [hfindB] at h
        simp only [Except.ok.injEq] at h
        omega
      | some depB =>
        rw [hfindB] at h
        by_cases hdev : crateItemDep.isDev = depB.isDev
        · simp only [if_pos hdev] at h
          exact absurd h (by simp)
        · simp only [if_neg hdev] at h
          by_cases hdev2 : crateItemDep.isDev = true
          · simp only [if_pos hdev2] at h
            obtain ⟨m, hm, rfl⟩ := except_map_ok _ _ _ h
            have := getInsertPosition_le c crateDeps rest m hm
            simp only [List.length_cons]
            omega
          · simp only [if_neg hdev2, Except.ok.injEq] at h
            omega

theorem insertCrate_perm (repoCrates : List Crate) (sorted out : List SortedItem)
    (c : Crate) (h : insertCrate repoCrates sorted c = Except.ok out) :
    out.Perm (⟨c, immediateDependenciesInRepo repoCrates c⟩ :: sorted) := by
  simp only [insertCrate] at h
  cases hpos : getInsertPosition c (immediateDependenciesInRepo repoCrates c) sorted with
  | error e => rw [hpos] at h; exact absurd h (by simp)
  | ok pos =>
    rw [hpos] at h
    simp only [Except.ok.injEq] at h
    subst h
    exact insertIdx_perm _ pos sorted (getInsertPosition_le _ _ _ _ hpos)

theorem foldlM_insertCrate_perm (repoCrates : List Crate) :
    ∀ (crates : List Crate) (acc out : List SortedItem),
      crates.foldlM (insertCrate repoCrates) acc = Except.ok out →
      (out.map (·.crate)).Perm (acc.map (·.crate) ++ crates)
  | [], acc, out, h => by
    simp only [List.foldlM_nil, pure, Except.pure, Except.ok.injEq] at h
    subst h
    simp
  | c :: cs, acc, out, h => by
    rw [List.foldlM_cons] at h
    cases hin : insertCrate repoCrates acc c with
    | error e =>
      rw [hin] at h
      simp only [bind, Except.bind] at h
      exact absurd h (by simp)
    | ok acc' =>
      rw [hin] at h
      simp only [bind, Except.bind] at h
      have hperm := insertCrate_perm repoCrates acc acc' c hin
      have ih := foldlM_insertCrate_perm repoCrates cs acc' out h
      have hmap : (acc'.map (·.crate)).Perm (c :: acc.map (·.crate)) := hperm.map _
      exact ih.trans ((hmap.append_right cs).trans List.perm_middle.symm)

/-- C3: whenever `getCratesPublishOrder` returns normally, the returned
sequence is a permutation of the input sequence: it contains exactly the
input crates, none duplicated, none missing. -/
theorem getCratesPublishOrder_perm (repoCrates crates out : List Crate)
    (h : getCratesPublishOrder repoCrates crates = Except.ok out) :
    out.Perm crates := by
  unfold getCratesPublishOrder at h
  cases hf : crates.foldlM (insertCrate repoCrates) [] with
  | error e => rw [hf] at h; exact absurd h (by simp)
  | ok sorted =>
    rw [hf] at h
    simp only [Except.ok.injEq] at h
    subst h
    simpa using foldlM_insertCrate_perm repoCrates crates [] sorted hf

/-- Witness for C3 at a concrete input. -/
theorem getCratesPublishOrder_perm_witness :
    ([cP, cR, cQ] : List Crate).Perm [cR, cQ, cP] :=
  getCratesPublishOrder_perm [cR, cQ, cP] [cR, cQ, cP] [cP, cR, cQ] rfl

theorem getInsertPosition_eq_length (c : Crate) (crateDeps : List CrateDep) :
    ∀ (sorted : List SortedItem),
      (∀ item ∈ sorted, ∀ d ∈ item.deps, d.crate.name ≠ c.name) →
      getInsertPosition c crateDeps sorted = Except.ok sorted.length
  | [], _ => rfl
  | item :: rest, h => by
    have hfind : item.deps.find? (fun d => d.crate.name == c.name) = none := by
      apply List.find?_eq_none.mpr
      intro d hd
      simpa using h item (by simp) d hd
    simp only [getInsertPosition, hfind]
    rw [getInsertPosition_eq_length c crateDeps rest
      (fun it hit d hd => h it (by simp [hit]) d hd)]
    simp [Except.map]

/-- The crate states that `getCratesPublishOrder` builds for each input
crate. -/
def toSortedItem (repoCrates : List Crate) (c : Crate) : SortedItem :=
  ⟨c, immediateDependenciesInRepo repoCrates c⟩

theorem foldlM_insertCrate_append (repoCrates : List Crate) :
    ∀ (crates : List Crate) (acc : List SortedItem),
      (∀ item ∈ acc, ∀ c ∈ crates, ∀ d ∈ item.deps, d.crate.name ≠ c.name) →
      crates.Pairwise (fun a b =>
        ∀ d ∈ immediateDependenciesInRepo repoCrates a, d.crate.name ≠ b.name) →
      crates.foldlM (insertCrate repoCrates) acc =
        Except.ok (acc ++ crates.map (toSortedItem repoCrates))
  | [], acc, _, _ => by simp [pure, Except.pure]
  | c :: cs, acc, hacc, hpair => by
    rw [List.foldlM_cons]
    have hins : insertCrate repoCrates acc c =
        Except.ok (acc ++ [toSortedItem repoCrates c]) := by
      simp only [insertCrate]
      rw [getInsertPosition_eq_length c _ acc
        (fun item hit d hd => hacc item hit c (by simp) d hd)]
      simp [toSortedItem]
    rw [hins]
    simp only [bind, Except.bind]
    rw [List.pairwise_cons] at hpair
    rw [foldlM_insertCrate_append repoCrates cs (acc ++ [toSortedItem repoCrates c])
      (by
        intro item hit c' hc' d hd
        rcases List.mem_append.mp hit with hit | hit
        · exact hacc item hit c' (by simp [hc']) d hd
        · simp only [List.mem_singleton] at hit
          subst hit
          exact hpair.1 c' hc' d hd)
      hpair.2]
    simp

/-- C1 (amended): if the input sequence is already topologically ordered —
every in-workspace dependency edge of a crate points to a crate strictly
earlier in the input — then `getCratesPublishOrder` returns the input order
unchanged, and in the returned order every normal in-workspace dependency
edge A→B has B strictly before A. -/
theorem getCratesPublishOrder_of_topo_input (crates : List Crate)
    (H : ∀ i j : Fin crates.length,
      (∃ d ∈ immediateDependenciesInRepo crates (crates.get i),
        d.crate.name = (crates.get j).name) → (j : Nat) < (i : Nat)) :
    getCratesPublishOrder crates crates = Except.ok crates ∧
    ∀ i j : Fin crates.length,
      (∃ d ∈ immediateDependenciesInRepo crates (crates.get i),
        d.isDev = false ∧ d.crate.name = (crates.get j).name) →
      (j : Nat) < (i : Nat) := by
  constructor
  · have hpair : crates.Pairwise (fun a b =>
        ∀ d ∈ immediateDependenciesInRepo crates a, d.crate.name ≠ b.name) := by
      rw [List.pairwise_iff_get]
      intro i j hij d hd hname
      exact absurd (H i j ⟨d, hd, hname⟩) (by omega)
    unfold getCratesPublishOrder
    rw [foldlM_insertCrate_append crates crates [] (by simp) hpair]
    simp only [List.nil_append, List.map_map, Except.ok.injEq]
    exact List.map_id' crates
  · rintro i j ⟨d, hd, -, hname⟩
    exact H i j ⟨d, hd, hname⟩

/-- Witness for the amended C1 at a concrete topologically ordered input. -/
theorem getCratesPublishOrder_of_topo_input_witness :
    getCratesPublishOrder [cQ, cP, cR] [cQ, cP, cR] = Except.ok [cQ, cP, cR] ∧
    ∀ i j : Fin ([cQ, cP, cR] : List Crate).length,
      (∃ d ∈ immediateDependenciesInRepo [cQ, cP, cR]
          (([cQ, cP, cR] : List Crate).get i),
        d.isDev = false ∧ d.crate.name = (([cQ, cP, cR] : List Crate).get j).name) →
      (j : Nat) < (i : Nat) :=
  getCratesPublishOrder_of_topo_input [cQ, cP, cR] (by decide)

/-- C1 (counterexample): the input `[r, q, p]` with normal edges r→p and
p→q has an acyclic normal-dependency graph — the permutation `[q, p, r]` is
a topological order for it — yet `getCratesPublishOrder` returns normally
with the order `[p, r, q]`, in which `p` appears strictly before its normal
dependency `q`. -/
theorem getCratesPublishOrder_c1_counterexample :
    ([cQ, cP, cR] : List Crate).Perm [cR, cQ, cP] ∧
    (∀ i j : Fin ([cQ, cP, cR] : List Crate).length,
      (∃ d ∈ immediateDependenciesInRepo [cR, cQ, cP]
          (([cQ, cP, cR] : List Crate).get i),
        d.crate.name = (([cQ, cP, cR] : List Crate).get j).name) →
      (j : Nat) < (i : Nat)) ∧
    getCratesPublishOrder [cR, cQ, cP] [cR, cQ, cP] = Except.ok [cP, cR, cQ] ∧
    (∃ d ∈ immediateDependenciesInRepo [cR, cQ, cP] cP,
      d.isDev = false ∧ d.crate = cQ) ∧
    ¬ List.indexOf cQ [cP, cR, cQ] < List.indexOf cP [cP, cR, cQ] :=
  ⟨by decide, by decide, rfl, by decide, by decide⟩

/-- Concrete crate `a`, normally depending on `b`. -/
def cA : Crate := ⟨"a", [⟨"b", DepKind.normal⟩]⟩

/-- Concrete crate `b`, normally depending on `a`. -/
def cB : Crate := ⟨"b", [⟨"a", DepKind.normal⟩]⟩

/-- Concrete crate `x`, normally depending on `b`. -/
def cX : Crate := ⟨"x", [⟨"b", DepKind.normal⟩]⟩

theorem two_crate_cycle (a b : Crate) (ka kb : DepKind)
    (hab : a.name ≠ b.name)
    (hadeps : a.dependencies = [⟨b.name, ka⟩])
    (hbdeps : b.dependencies = [⟨a.name, kb⟩])
    (hkind : (ka == DepKind.dev) = (kb == DepKind.dev)) :
    getCratesPublishOrder [a, b] [a, b] =
      Except.error
        ("Circular dependency found between " ++ b.name ++ " and " ++ a.name) := by
  have hba : (a.name == b.name) = false := by simpa using hab
  have hab' : (b.name == a.name) = false := by simpa using (Ne.symm hab)
  simp [getCratesPublishOrder, insertCrate, getInsertPosition,
    immediateDependenciesInRepo, hadeps, hbdeps, List.find?, List.filterMap,
    hba, hab', hkind, bind, Except.bind]

/-- C2 (amended): for every two-crate input where each crate has an
in-workspace dependency edge to the other and the two edges have the same
kind (both dev or both non-dev), `getCratesPublishOrder` throws a
circular-dependency error whose message names both crates — in either input
order.  (For larger inputs the cycle can go undetected, see the
counterexample.) -/
theorem getCratesPublishOrder_two_crate_cycle (a b : Crate) (ka kb : DepKind)
    (hab : a.name ≠ b.name)
    (hadeps : a.dependencies = [⟨b.name, ka⟩])
    (hbdeps : b.dependencies = [⟨a.name, kb⟩])
    (hkind : (ka == DepKind.dev) = (kb == DepKind.dev)) :
    getCratesPublishOrder [a, b] [a, b] =
      Except.error
        ("Circular dependency found between " ++ b.name ++ " and " ++ a.name) ∧
    getCratesPublishOrder [b, a] [b, a] =
      Except.error
        ("Circular dependency found between " ++ a.name ++ " and " ++ b.name) :=
  ⟨two_crate_cycle a b ka kb hab hadeps hbdeps hkind,
   two_crate_cycle b a kb ka (Ne.symm hab) hbdeps hadeps hkind.symm⟩

/-- Witness for the amended C2: the two-crate normal/normal cycle `{a, b}`
raises an error mentioning both `a` and `b` for both input orders. -/
theorem getCratesPublishOrder_two_crate_cycle_witness :
    getCratesPublishOrder [cA, cB] [cA, cB] =
      Except.error ("Circular dependency found between " ++ "b" ++ " and " ++ "a") ∧
    getCratesPublishOrder [cB, cA] [cB, cA] =
      Except.error ("Circular dependency found between " ++ "a" ++ " and " ++ "b") :=
  getCratesPublishOrder_two_crate_cycle cA cB DepKind.normal DepKind.normal
    (by decide) rfl rfl rfl

/-- C2 (counterexample): in the input `[x, a, b]`, the crates `a` and `b`
have a normal in-workspace dependency edge to each other — a matching-kind
circular dependency — yet `getCratesPublishOrder` returns normally (the
scan inserts `b` in front of `x` before ever comparing `b` against `a`). -/
theorem getCratesPublishOrder_c2_counterexample :
    (∃ d ∈ immediateDependenciesInRepo [cX, cA, cB] cA,
      d.isDev = false ∧ d.crate = cB) ∧
    (∃ d ∈ immediateDependenciesInRepo [cX, cA, cB] cB,
      d.isDev = false ∧ d.crate = cA) ∧
    getCratesPublishOrder [cX, cA, cB] [cX, cA, cB] = Except.ok [cB, cX, cA] :=
  ⟨by decide, by decide, rfl⟩

/-- C4: for a two-crate input where `a` has a normal dependency edge to `b`
and `b` has only a dev dependency edge to `a`, `getCratesPublishOrder` does
not raise a cycle error and orders `b` strictly before `a` — for either
input order. -/
theorem getCratesPublishOrder_dev_tiebreak (a b : Crate)
    (hab : a.name ≠ b.name)
    (hadeps : a.dependencies = [⟨b.name, DepKind.normal⟩])
    (hbdeps : b.dependencies = [⟨a.name, DepKind.dev⟩]) :
    getCratesPublishOrder [a, b] [a, b] = Except.ok [b, a] ∧
    getCratesPublishOrder [b, a] [b, a] = Except.ok [b, a] := by
  have hba : (a.name == b.name) = false := by simpa using hab
  have hab' : (b.name == a.name) = false := by simpa using (Ne.symm hab)
  constructor <;>
    simp [getCratesPublishOrder, insertCrate, getInsertPosition,
      immediateDependenciesInRepo, hadeps, hbdeps, List.find?, List.filterMap,
      hba, hab', bind, Except.bind, Except.map, List.insertIdx, pure,
      Except.pure]

/-- Witness for C4 at a concrete two-crate input. -/
theorem getCratesPublishOrder_dev_tiebreak_witness :
    getCratesPublishOrder [⟨"a", [⟨"b", DepKind.normal⟩]⟩,
        ⟨"b", [⟨"a", DepKind.dev⟩]⟩]
      [⟨"a", [⟨"b", DepKind.normal⟩]⟩, ⟨"b", [⟨"a", DepKind.dev⟩]⟩] =
      Except.ok [⟨"b", [⟨"a", DepKind.dev⟩]⟩, ⟨"a", [⟨"b", DepKind.normal⟩]⟩] ∧
    getCratesPublishOrder [⟨"b", [⟨"a", DepKind.dev⟩]⟩,
        ⟨"a", [⟨"b", DepKind.normal⟩]⟩]
      [⟨"b", [⟨"a", DepKind.dev⟩]⟩, ⟨"a", [⟨"b", DepKind.normal⟩]⟩] =
      Except.ok [⟨"b", [⟨"a", DepKind.dev⟩]⟩, ⟨"a", [⟨"b", DepKind.normal⟩]⟩] :=
  getCratesPublishOrder_dev_tiebreak ⟨"a", [⟨"b", DepKind.normal⟩]⟩
    ⟨"b", [⟨"a", DepKind.dev⟩]⟩ (by decide) rfl rfl

/-- C5: `getCratesPublishOrder` is deterministic — it is a pure function of
the repo crate list and the input sequence, so two invocations on equal
inputs produce identical results (the same output order, or the same
error). -/
theorem getCratesPublishOrder_deterministic
    (repo₁ repo₂ crates₁ crates₂ : List Crate)
    (hr : repo₁ = repo₂) (hc : crates₁ = crates₂) :
    getCratesPublishOrder repo₁ crates₁ = getCratesPublishOrder repo₂ crates₂ := by
  rw [hr, hc]

/-- Witness for C5 at a concrete input. -/
theorem getCratesPublishOrder_deterministic_witness :
    getCratesPublishOrder [cR, cQ, cP] [cR, cQ, cP] =
      getCratesPublishOrder [cR, cQ, cP] [cR, cQ, cP] :=
  getCratesPublishOrder_deterministic [cR, cQ, cP] [cR, cQ, cP]
    [cR, cQ, cP] [cR, cQ, cP] rfl rfl

/-- The manifest-relevant state of a `Crate`: the manifest path, the current
text of the manifest file on disk, and the `#isUpdatingManifest` re-entrancy
flag. -/
structure ManifestState where
  manifestPath : String
  manifestText : String
  isUpdatingManifest : Bool
deriving DecidableEq, Repr

/-- Embeds `updateFileEnsureChange` (`src/crate.ts`): run the rewrite action
on the file's current text; if the text did not change, throw a
"file didn't change" error; otherwise return the new text, which the source
then writes back to the file. -/
def updateFileEnsureChange (filePath : String) (fileText : String)
    (action : String → String → String) : Except String String :=
  let newText := action filePath fileText
  if fileText = newText then
    Except.error ("The file didn't change: " ++ filePath)
  else
    Except.ok newText

/-- Embeds `Crate.#updateManifestFile` (`src/crate.ts`): fail fast with a
re-entrancy error if an update of the same manifest is already in flight
(before touching the file), otherwise set the in-flight flag, perform the
guarded edit, and — in a `finally` block — reset the flag on every exit
path, normal or thrown.  The returned state is the state after the call. -/
def updateManifestFile (st : ManifestState)
    (action : String → String → String) : Except String Unit × ManifestState :=
  if st.isUpdatingManifest then
    (Except.error "Cannot update manifest while updating manifest.", st)
  else
    match updateFileEnsureChange st.manifestPath st.manifestText action with
    | Except.error e =>
      (Except.error e, { st with isUpdatingManifest := false })
    | Except.ok newText =>
      (Except.ok (),
        { st with manifestText := newText, isUpdatingManifest := false })

/-- C6: a manifest update whose rewrite action returns text identical to the
file's current text throws a "file didn't change" error and leaves the file
text unchanged — a no-op rewrite is never silently ignored. -/
theorem updateManifestFile_noop_fails (st : ManifestState)
    (action : String → String → String)
    (hflag : st.isUpdatingManifest = false)
    (hnoop : action st.manifestPath st.manifestText = st.manifestText) :
    (updateManifestFile st action).1 =
      Except.error ("The file didn't change: " ++ st.manifestPath) ∧
    (updateManifestFile st action).2.manifestText = st.manifestText := by
  simp [updateManifestFile, updateFileEnsureChange, hflag, hnoop]

/-- Witness for C6 at a concrete state and identity rewrite. -/
theorem updateManifestFile_noop_fails_witness :
    (updateManifestFile ⟨"Cargo.toml", "text", false⟩ (fun _ t => t)).1 =
      Except.error ("The file didn't change: " ++ "Cargo.toml") ∧
    (updateManifestFile ⟨"Cargo.toml", "text", false⟩
        (fun _ t => t)).2.manifestText = "text" :=
  updateManifestFile_noop_fails ⟨"Cargo.toml", "text", false⟩ (fun _ t => t)
    rfl rfl

/-- C7: the in-flight manifest-edit flag is a maintained mutual-exclusion
invariant: a call while the flag is set throws a re-entrancy error without
touching the file or the state, and a call that starts with the flag clear
ends with the flag clear on every exit path (normal return or thrown
error), so a later update is never spuriously rejected. -/
theorem updateManifestFile_reentrancy_invariant (st : ManifestState)
    (action : String → String → String) :
    (st.isUpdatingManifest = true →
      updateManifestFile st action =
        (Except.error "Cannot update manifest while updating manifest.", st)) ∧
    (st.isUpdatingManifest = false →
      (updateManifestFile st action).2.isUpdatingManifest = false) := by
  constructor
  · intro hflag
    simp [updateManifestFile, hflag]
  · intro hflag
    cases hup : updateFileEnsureChange st.manifestPath st.manifestText action with
    | error e => simp [updateManifestFile, hflag, hup]
    | ok newText => simp [updateManifestFile, hflag, hup]

/-- Witness for C7: a re-entrant call is rejected with the state unchanged,
and both a failing (no-op) and a succeeding update end with the in-flight
flag clear. -/
theorem updateManifestFile_reentrancy_invariant_witness :
    updateManifestFile ⟨"Cargo.toml", "text", true⟩ (fun _ t => t ++ "!") =
      (Except.error "Cannot update manifest while updating manifest.",
        ⟨"Cargo.toml", "text", true⟩) ∧
    (updateManifestFile ⟨"Cargo.toml", "text", false⟩
        (fun _ t => t)).2.isUpdatingManifest = false ∧
    (updateManifestFile ⟨"Cargo.toml", "text", false⟩
        (fun _ t => t ++ "!")).2.isUpdatingManifest = false :=
  ⟨(updateManifestFile_reentrancy_invariant ⟨"Cargo.toml", "text", true⟩
      (fun _ t => t ++ "!")).1 rfl,
   (updateManifestFile_reentrancy_invariant ⟨"Cargo.toml", "text", false⟩
      (fun _ t => t)).2 rfl,
   (updateManifestFile_reentrancy_invariant ⟨"Cargo.toml", "text", false⟩
      (fun _ t => t ++ "!")).2 rfl⟩

/-- A version entry of the crates.io metadata (`versions[i].num`). -/
structure CratesIoVersion where
  num : String
deriving DecidableEq, Repr

/-- The crates.io metadata for one crate name: its published versions.
`getCratesIoMetadata` returns `none` when the registry has no record at all
for the name. -/
structure CratesIoMetadata where
  versions : List CratesIoVersion
deriving DecidableEq, Repr

/-- Embeds `Crate.isPublished` (`src/crate.ts`): `none` when the crate was
never published under any version, otherwise `some b` where `b` tells
whether the crate's exact current version is among the published version
numbers. -/
def isPublished (cratesIoMetadata : Option CratesIoMetadata)
    (version : String) : Option Bool :=
  match cratesIoMetadata with
  | none => none
  | some m => some (m.versions.any (fun v => v.num == version))

/-- Modelled from the spec: dax's `$.withRetries` helper is not part of this
repository's sources.  Per the spec it runs the action up to `count`
attempts with a fixed inter-attempt delay and fails fatally after
exhausting the retries.  `attempt i` tells whether the `i`-th invocation of
the action succeeds; the result records the outcome, how many times the
action was invoked, and the delays (in seconds) waited between attempts. -/
def withRetries (attempt : Nat → Bool) (delaySeconds : Nat) :
    Nat → Nat → Except String Unit × Nat × List Nat
  | _, 0 => (Except.error "Failed after retries.", 0, [])
  | start, n + 1 =>
    if attempt start then (Except.ok (), 1, [])
    else if n = 0 then (Except.error "Failed after retries.", 1, [])
    else
      let rest := withRetries attempt delaySeconds (start + 1) n
      (rest.1, rest.2.1 + 1, delaySeconds :: rest.2.2)

/-- Embeds `Crate.publish` (`src/crate.ts`): skip (returning `false`) when
the crate was never published or when the exact current version is already
published; otherwise run `cargo publish` through `$.withRetries` with
`count: 5` and `delay: "10s"`.  The result records the outcome (`ok false`
= skipped, `ok true` = published), the number of `cargo publish`
invocations, and the delays waited. -/
def publish (cratesIoMetadata : Option CratesIoMetadata) (version : String)
    (attempt : Nat → Bool) : Except String Bool × Nat × List Nat :=
  match isPublished cratesIoMetadata version with
  | none => (Except.ok false, 0, [])
  | some true => (Except.ok false, 0, [])
  | some false =>
    let r := withRetries attempt 10 0 5
    match r.1 with
    | Except.ok _ => (Except.ok true, r.2.1, r.2.2)
    | Except.error e => (Except.error e, r.2.1, r.2.2)

theorem withRetries_bounds (attempt : Nat → Bool) (delaySeconds : Nat) :
    ∀ (n start : Nat),
      (withRetries attempt delaySeconds start n).2.1 ≤ n ∧
      (withRetries attempt delaySeconds start n).2.2 =
        List.replicate ((withRetries attempt delaySeconds start n).2.1 - 1)
          delaySeconds
  | 0, start => by simp [withRetries]
  | n + 1, start => by
    by_cases h : attempt start = true
    · simp [withRetries, h]
    · by_cases hn : n = 0
      · simp [withRetries, h, hn]
      · have ih := withRetries_bounds attempt delaySeconds n (start + 1)
        have hge : 1 ≤ (withRetries attempt delaySeconds (start + 1) n).2.1 := by
          cases n with
          | zero => exact absurd rfl hn
          | succ m =>
            by_cases h2 : attempt (start + 1) = true
            · simp [withRetries, h2]
            · by_cases hm : m = 0
              · simp [withRetries, h2, hm]
              · simp only [withRetries, if_neg h2, if_neg hm]
                omega
        simp only [withRetries, if_neg h, if_neg hn]
        constructor
        · omega
        · rw [ih.2]
          have : (withRetries attempt delaySeconds (start + 1) n).2.1 + 1 - 1 =
              ((withRetries attempt delaySeconds (start + 1) n).2.1 - 1) + 1 := by
            omega
          rw [this, List.replicate_succ]

theorem withRetries_all_fail (attempt : Nat → Bool)
    (hfail : ∀ i, attempt i = false) (start : Nat) :
    withRetries attempt 10 start 5 =
      (Except.error "Failed after retries.", 5, [10, 10, 10, 10]) := by
  simp [withRetries, hfail]

/-- C8: a crate whose exact current version is already recorded in the
registry is skipped (`publish` returns `false`) without a single
`cargo publish` invocation; when the crate does need publishing, the
publish command is invoked at most 5 times with a fixed 10-second
inter-attempt delay, and after all 5 attempts fail the operation fails
fatally. -/
theorem publish_idempotent_and_retries (cratesIoMetadata : Option CratesIoMetadata)
    (version : String) (attempt : Nat → Bool) :
    (isPublished cratesIoMetadata version = some true →
      publish cratesIoMetadata version attempt = (Except.ok false, 0, [])) ∧
    (isPublished cratesIoMetadata version = some false →
      (publish cratesIoMetadata version attempt).2.1 ≤ 5 ∧
      (publish cratesIoMetadata version attempt).2.2 =
        List.replicate ((publish cratesIoMetadata version attempt).2.1 - 1) 10 ∧
      ((∀ i, attempt i = false) →
        publish cratesIoMetadata version attempt =
          (Except.error "Failed after retries.", 5, [10, 10, 10, 10]))) := by
  constructor
  · intro h
    simp [publish, h]
  · intro h
    refine ⟨?_, ?_, ?_⟩
    · have := (withRetries_bounds attempt 10 5 0).1
      simp only [publish, h]
      cases hr : (withRetries attempt 10 0 5).1 <;>
        simpa [hr] using this
    · have := (withRetries_bounds attempt 10 5 0).2
      simp only [publish, h]
      cases hr : (withRetries attempt 10 0 5).1 <;>
        simpa [hr] using this
    · intro hfail
      simp [publish, h, withRetries_all_fail attempt hfail 0]

/-- Witness for C8: an already-published version is skipped with zero
invocations, and an always-failing publish of a missing version stops
fatally after 5 attempts with 10-second delays between them. -/
theorem publish_idempotent_and_retries_witness :
    publish (some ⟨[⟨"1.0.0"⟩]⟩) "1.0.0" (fun _ => false) =
      (Except.ok false, 0, []) ∧
    publish (some ⟨[⟨"1.0.0"⟩]⟩) "2.0.0" (fun _ => false) =
      (Except.error "Failed after retries.", 5, [10, 10, 10, 10]) :=
  ⟨(publish_idempotent_and_retries (some ⟨[⟨"1.0.0"⟩]⟩) "1.0.0"
      (fun _ => false)).1 (by decide),
   ((publish_idempotent_and_retries (some ⟨[⟨"1.0.0"⟩]⟩) "2.0.0"
      (fun _ => false)).2 (by decide)).2.2 (fun _ => rfl)⟩

/-- C10: a crate with no registry record at all (never published under any
version) is silently skipped: `publish` returns `false` and `cargo publish`
is never invoked.  (Stated without hypotheses: `none` is the metadata of a
never-published crate.) -/
theorem publish_never_published_skips (version : String)
    (attempt : Nat → Bool) :
    publish none version attempt = (Except.ok false, 0, []) :=
  rfl

/-- Embeds `Repo.addCrate` (`src/repo.ts`): adding a crate whose name is
already present throws a duplicate-name error (leaving the crate list
unchanged); otherwise the crate is pushed onto the end of the list.  The
returned list is the repo's crate list after the call. -/
def addCrate (crates : List Crate) (crateMetadata : Crate) :
    Except String Unit × List Crate :=
  if crates.any (fun c => c.name == crateMetadata.name) then
    (Except.error ("Cannot add " ++ crateMetadata.name ++ " twice to a repo."),
      crates)
  else
    (Except.ok (), crates ++ [crateMetadata])

/-- C9: the workspace name-uniqueness invariant is preserved by `addCrate`:
starting from a crate list with pairwise-distinct names, adding a crate
whose name is already present throws a fatal duplicate-name error and
leaves the list unchanged, while adding a crate with a fresh name succeeds
and yields a list whose names are still pairwise distinct. -/
theorem addCrate_preserves_nodup (crates : List Crate) (pkg : Crate)
    (hnodup : (crates.map (·.name)).Nodup) :
    ((∃ c ∈ crates, c.name = pkg.name) →
      addCrate crates pkg =
        (Except.error ("Cannot add " ++ pkg.name ++ " twice to a repo."),
          crates)) ∧
    ((∀ c ∈ crates, c.name ≠ pkg.name) →
      (addCrate crates pkg).1 = Except.ok () ∧
      (addCrate crates pkg).2 = crates ++ [pkg] ∧
      (((addCrate crates pkg).2).map (·.name)).Nodup) := by
  constructor
  · rintro ⟨c, hc, hname⟩
    have hdup : crates.any (fun c => c.name == pkg.name) = true := by
      rw [List.any_eq_true]
      exact ⟨c, hc, by simpa using hname⟩
    simp [addCrate, hdup]
  · intro hfresh
    have hdup : crates.any (fun c => c.name == pkg.name) = false := by
      rw [List.any_eq_false]
      intro c hc
      simpa using hfresh c hc
    refine ⟨by simp [addCrate, hdup], by simp [addCrate, hdup], ?_⟩
    have hmem : pkg.name ∉ crates.map (·.name) := by
      rw [List.mem_map]
      rintro ⟨c, hc, hname⟩
      exact hfresh c hc hname
    simp [addCrate, hdup, List.nodup_append, hnodup, hmem]

/-- Witness for C9: a duplicate add is rejected leaving the list unchanged,
and a fresh add keeps the names pairwise distinct. -/
theorem addCrate_preserves_nodup_witness :
    (addCrate [cQ] ⟨"q", []⟩ =
      (Except.error ("Cannot add " ++ "q" ++ " twice to a repo."), [cQ])) ∧
    ((addCrate [cQ] cP).1 = Except.ok () ∧
      (addCrate [cQ] cP).2 = [cQ] ++ [cP] ∧
      (((addCrate [cQ] cP).2).map (·.name)).Nodup) :=
  ⟨(addCrate_preserves_nodup [cQ] ⟨"q", []⟩ (by decide)).1
      ⟨cQ, by simp, rfl⟩,
   (addCrate_preserves_nodup [cQ] cP (by decide)).2
      (by decide)⟩

end Automation
